import Mathlib

/-!
# Verification of the M/M/c Monte Carlo simulation engine

Shallow embedding of `src/lib/simulation.ts` (the simulation core of
`mc-sim-lab`).  JavaScript numbers are modelled as exact rationals (`ℚ`);
the impure exponential sampler (`Math.random` + `Math.log`) is modelled by
an explicit stream of its returned `(random, value)` pairs, injected as a
parameter; the unbounded `while` loop of `runSimulation` is modelled with
an explicit fuel parameter (every terminating run of the source loop is a
run of the fuelled loop for sufficiently large fuel, and every theorem
below is proved for all fuel values).
-/

namespace MCSim

/-- `SimulationParams` of the source: rates, server count and horizon.
`numServers` is kept as a natural number (the code indexes an array of
that length). -/
structure SimulationParams where
  arrivalRate : ℚ
  serviceRate : ℚ
  numServers : ℕ
  duration : ℚ
  deriving DecidableEq, Repr

/-- `CustomerRecord` of the source.  `id` and `serverAssigned` are the
integer-valued fields, everything else is a JS number modelled as `ℚ`. -/
structure CustomerRecord where
  id : ℕ
  randomIAT : ℚ
  randomST : ℚ
  interArrivalTime : ℚ
  arrivalTime : ℚ
  serviceTime : ℚ
  waitTime : ℚ
  startServiceTime : ℚ
  endServiceTime : ℚ
  serverAssigned : ℕ
  deriving DecidableEq, Repr

/-- `SimulationResult` of the source. -/
structure SimulationResult where
  customers : List CustomerRecord
  avgWaitTime : ℚ
  maxWaitTime : ℚ
  avgQueueLength : ℚ
  serverUtilization : ℚ
  totalCustomers : ℕ
  customersServed : ℕ
  deriving DecidableEq, Repr

/-- `DatasetRow` of the source. -/
structure DatasetRow where
  interArrivalTime : ℚ
  serviceTime : ℚ
  deriving DecidableEq, Repr

/-- `Math.min(...list)` on a nonempty spread: the minimum of the list.
(The source only ever applies it to the nonempty `serverFinishTimes`
array; the `[]` case is given the junk value `0`.) -/
def listMin : List ℚ → ℚ
  | [] => 0
  | [x] => x
  | x :: y :: xs => min x (listMin (y :: xs))

/-- `Math.max(...list)` on a nonempty spread, as used on the wait-time
column by `computeResults`. -/
def listMax : List ℚ → ℚ
  | [] => 0
  | [x] => x
  | x :: y :: xs => max x (listMax (y :: xs))

/-- `Array.prototype.indexOf`: index of the first occurrence (returns the
length when absent; the source's `-1` case is unreachable because the
searched value is `Math.min` of the array itself). -/
def jsIndexOf (x : ℚ) : List ℚ → ℕ
  | [] => 0
  | y :: ys => if y = x then 0 else jsIndexOf x ys + 1

/-- Output of one event-stepper assignment. -/
structure StepOut where
  finishTimes : List ℚ
  serverIndex : ℕ
  startServiceTime : ℚ
  waitTime : ℚ
  endServiceTime : ℚ
  deriving DecidableEq, Repr

/-- The event-stepper core shared (textually duplicated) by
`runSimulation` and `runSimulationFromDataset`:

```js
const earliestFinish = Math.min(...serverFinishTimes);
const serverIndex = serverFinishTimes.indexOf(earliestFinish);
const startServiceTime = Math.max(currentTime, serverFinishTimes[serverIndex]);
const waitTime = startServiceTime - currentTime;
const endServiceTime = startServiceTime + serviceTime;
serverFinishTimes[serverIndex] = endServiceTime;
```
-/
def stepServers (serverFinishTimes : List ℚ) (currentTime serviceTime : ℚ) : StepOut :=
  let earliestFinish := listMin serverFinishTimes
  let serverIndex := jsIndexOf earliestFinish serverFinishTimes
  let startServiceTime := max currentTime (serverFinishTimes.getD serverIndex 0)
  let waitTime := startServiceTime - currentTime
  let endServiceTime := startServiceTime + serviceTime
  { finishTimes := serverFinishTimes.set serverIndex endServiceTime
    serverIndex := serverIndex
    startServiceTime := startServiceTime
    waitTime := waitTime
    endServiceTime := endServiceTime }

/-- `computeResults` of the source, field by field. -/
def computeResults (customers : List CustomerRecord) (numServers : ℕ)
    (duration arrivalRate : ℚ) : SimulationResult :=
  if customers.isEmpty then
    { customers := []
      avgWaitTime := 0
      maxWaitTime := 0
      avgQueueLength := 0
      serverUtilization := 0
      totalCustomers := 0
      customersServed := 0 }
  else
    let totalCustomers := customers.length
    let avgWaitTime := (customers.map (·.waitTime)).sum / (totalCustomers : ℚ)
    let maxWaitTime := listMax (customers.map (·.waitTime))
    let totalServiceTime := (customers.map (·.serviceTime)).sum
    let serverUtilization :=
      if 0 < duration then totalServiceTime / ((numServers : ℚ) * duration) * 100 else 0
    let avgQueueLength := arrivalRate * avgWaitTime
    { customers := customers
      avgWaitTime := avgWaitTime
      maxWaitTime := maxWaitTime
      avgQueueLength := avgQueueLength
      serverUtilization := min serverUtilization 100
      totalCustomers := totalCustomers
      customersServed := totalCustomers }

/-- The `customers.push({...})` record of both run loops: the listed
scalar fields plus the stepper outputs (`waitTime`, `startServiceTime`,
`endServiceTime` and the 1-based `serverAssigned := serverIndex + 1`). -/
def mkCustomer (n : ℕ) (rIAT rST ia t sv : ℚ) (s : StepOut) : CustomerRecord :=
  { id := n
    randomIAT := rIAT
    randomST := rST
    interArrivalTime := ia
    arrivalTime := t
    serviceTime := sv
    waitTime := s.waitTime
    startServiceTime := s.startServiceTime
    endServiceTime := s.endServiceTime
    serverAssigned := s.serverIndex + 1 }

/-- The `for` loop of `runSimulationFromDataset`: `i` is the row index,
`currentTime` and `serverFinishTimes` the mutable state. -/
def runFromDatasetLoop : List DatasetRow → ℕ → ℚ → List ℚ → List CustomerRecord
  | [], _, _, _ => []
  | row :: rest, i, currentTime, serverFinishTimes =>
    let interArrivalTime := if i = 0 then 0 else row.interArrivalTime
    let t := currentTime + interArrivalTime
    let s := stepServers serverFinishTimes t row.serviceTime
    mkCustomer (i + 1) 0 0 interArrivalTime t row.serviceTime s ::
      runFromDatasetLoop rest (i + 1) t s.finishTimes

/-- `runSimulationFromDataset` of the source. -/
def runSimulationFromDataset (dataset : List DatasetRow) (numServers : ℕ) :
    SimulationResult :=
  let customers := runFromDatasetLoop dataset 0 0 (List.replicate numServers 0)
  let duration := match customers.getLast? with
    | some c => c.endServiceTime
    | none => 0
  let avgIAT := (dataset.map (·.interArrivalTime)).sum / (dataset.length : ℚ)
  let arrivalRate := if 0 < avgIAT then 1 / avgIAT else 1
  computeResults customers numServers duration arrivalRate

/-- One output of the impure `exponentialRandom` sampler: the uniform
draw `R` and the derived value `-ln(R)/rate`.  The sampler is impure
(`Math.random`) and transcendental (`Math.log`), so runs are quantified
over an arbitrary stream of such pairs; for a positive rate the real
sampler's `value` is always nonnegative, which theorems take as a
hypothesis on the stream where they need it. -/
structure Sample where
  random : ℚ
  value : ℚ
  deriving DecidableEq, Repr

/-- The ternary `customerId === 1 ? 0 : iat.value`: the first entity's
inter-arrival time is forced to 0. -/
def firstIAT (cid : ℕ) (v : ℚ) : ℚ := if cid = 1 then 0 else v

/-- The `while (currentTime < duration)` loop of `runSimulation`.
`sampler k` is the result of the `k`-th `exponentialRandom` call
(`drawIdx` counts calls: the inter-arrival draw of an iteration is
`sampler drawIdx`, the service draw `sampler (drawIdx + 1)`).  `fuel`
bounds the number of iterations; the source loop has no such bound and
may diverge, and every terminating source run is reproduced by a large
enough fuel. -/
def runSimLoop (sampler : ℕ → Sample) (duration : ℚ) :
    ℕ → ℚ → ℕ → ℕ → List ℚ → List CustomerRecord
  | 0, _, _, _, _ => []
  | fuel + 1, currentTime, customerId, drawIdx, serverFinishTimes =>
    if currentTime < duration then
      let cid := customerId + 1
      let iat := sampler drawIdx
      let interArrivalTime := firstIAT cid iat.value
      let t := currentTime + interArrivalTime
      if duration ≤ t then []
      else
        let st := sampler (drawIdx + 1)
        let s := stepServers serverFinishTimes t st.value
        mkCustomer cid iat.random st.random interArrivalTime t st.value s ::
          runSimLoop sampler duration fuel t cid (drawIdx + 2) s.finishTimes
    else []

/-- `runSimulation` of the source, with the sampler stream and fuel made
explicit. -/
def runSimulation (params : SimulationParams) (sampler : ℕ → Sample) (fuel : ℕ) :
    SimulationResult :=
  let customers :=
    runSimLoop sampler params.duration fuel 0 0 0 (List.replicate params.numServers 0)
  computeResults customers params.numServers params.duration params.arrivalRate

/-! ## CSV parsing (`parseCSV`)

The string operations of the source (`trim`, `split(/\r?\n/)`,
`toLowerCase`, `split(/[,;\t]/)`, `includes`, `findIndex`, `parseFloat`)
are modelled over `List Char`.  `parseFloat` is modelled on finite
decimal notation (optional sign, digits, decimal point, exponent part),
which is the whole numeric surface of CSV cells; `NaN` is `none`. -/

/-- `String.prototype.trim`: strip leading and trailing whitespace. -/
def jsTrim (cs : List Char) : List Char :=
  ((cs.dropWhile Char.isWhitespace).reverse.dropWhile Char.isWhitespace).reverse

/-- `split(/\r?\n/)`: break at each `"\r\n"` or lone `"\n"` (a lone
`"\r"` is not a break). -/
def splitLines : List Char → List (List Char)
  | [] => [[]]
  | '\r' :: '\n' :: rest => [] :: splitLines rest
  | '\n' :: rest => [] :: splitLines rest
  | c :: rest =>
    match splitLines rest with
    | [] => [[]]
    | g :: gs => (c :: g) :: gs

/-- `split` on a character class: break at every delimiter character,
keeping empty fields. -/
def splitOnPred (p : Char → Bool) : List Char → List (List Char)
  | [] => [[]]
  | c :: rest =>
    match splitOnPred p rest with
    | [] => [[]]
    | g :: gs => if p c then [] :: g :: gs else (c :: g) :: gs

/-- The delimiter class `[,;\t]` of the source's `split` regex. -/
def isDelim (c : Char) : Bool := c = ',' || c = ';' || c = '\t'

/-- Is `pre` a prefix of `s`? (helper for `includes`). -/
def isPrefixL : List Char → List Char → Bool
  | [], _ => true
  | _ :: _, [] => false
  | a :: as, b :: bs => a = b && isPrefixL as bs

/-- `String.prototype.includes`: does `sub` occur as a contiguous
substring of `s`? -/
def containsSub (sub : List Char) : List Char → Bool
  | [] => sub.isEmpty
  | c :: rest => isPrefixL sub (c :: rest) || containsSub sub rest

/-- `Array.prototype.findIndex`, with `none` for JS's `-1`. -/
def findIdxO (p : α → Bool) : List α → Option ℕ
  | [] => none
  | a :: as =>
    if p a then some 0
    else match findIdxO p as with
      | some n => some (n + 1)
      | none => none

/-- Value of a list of decimal digit characters. -/
def digitsToNat (ds : List Char) : ℕ :=
  ds.foldl (fun n c => n * 10 + (c.toNat - 48)) 0

/-- Shape of the longest decimal-literal prefix a `parseFloat` call
consumes: sign, integer digits, fraction digits, exponent sign and
exponent digits. -/
structure FloatLit where
  neg : Bool
  intd : List Char
  fracd : List Char
  expNeg : Bool
  expd : List Char
  deriving DecidableEq, Repr

/-- Scanner part of `parseFloat`: skip leading whitespace, optional
sign, then the longest prefix of the form
`digits [. digits] [e|E [+|-] digits]` (at least one digit before or
after the dot); trailing junk is ignored and no-digits is `NaN`
(`none`).  An exponent marker without digits contributes nothing, as in
JS where the longest valid literal prefix wins. -/
def floatLitOf (s : List Char) : Option FloatLit :=
  let s1 := s.dropWhile Char.isWhitespace
  let neg : Bool := match s1 with
    | '-' :: _ => true
    | _ => false
  let s2 := match s1 with
    | '-' :: r => r
    | '+' :: r => r
    | _ => s1
  let intd := s2.takeWhile Char.isDigit
  let s3 := s2.drop intd.length
  let fracd := match s3 with
    | '.' :: r => r.takeWhile Char.isDigit
    | _ => []
  let s4 := match s3 with
    | '.' :: r => r.drop (r.takeWhile Char.isDigit).length
    | _ => s3
  if intd.isEmpty && fracd.isEmpty then none
  else
    let s5 : Option (List Char) := match s4 with
      | 'e' :: r => some r
      | 'E' :: r => some r
      | _ => none
    match s5 with
    | none => some ⟨neg, intd, fracd, false, []⟩
    | some r =>
      let expNeg : Bool := match r with
        | '-' :: _ => true
        | _ => false
      let r2 := match r with
        | '-' :: r' => r'
        | '+' :: r' => r'
        | _ => r
      some ⟨neg, intd, fracd, expNeg, r2.takeWhile Char.isDigit⟩

/-- Rational value of a scanned decimal literal. -/
def floatLitVal (f : FloatLit) : ℚ :=
  let mantissa : ℚ :=
    (digitsToNat f.intd : ℚ) + (digitsToNat f.fracd : ℚ) / ((10 : ℚ) ^ f.fracd.length)
  let scaled : ℚ :=
    if f.expNeg then mantissa / ((10 : ℚ) ^ digitsToNat f.expd)
    else mantissa * ((10 : ℚ) ^ digitsToNat f.expd)
  if f.neg then -scaled else scaled

/-- `parseFloat` on finite decimal notation (`NaN` is `none`). -/
def jsParseFloat (s : List Char) : Option ℚ :=
  (floatLitOf s).map floatLitVal

/-- Header test for the inter-arrival column:
`h.includes("iat") || h.includes("inter_arrival") || h.includes("interarrival") || h.includes("inter-arrival")`. -/
def headerHasIat (h : List Char) : Bool :=
  containsSub "iat".toList h || containsSub "inter_arrival".toList h ||
    containsSub "interarrival".toList h || containsSub "inter-arrival".toList h

/-- Header test for the service-time column:
`h.includes("service") || h.includes("st") || h.includes("duration")`. -/
def headerHasSt (h : List Char) : Bool :=
  containsSub "service".toList h || containsSub "st".toList h ||
    containsSub "duration".toList h

/-- `lines[0].toLowerCase().split(/[,;\t]/)` of the source. -/
def headersOf (lines : List (List Char)) : List (List Char) :=
  splitOnPred isDelim ((lines.getD 0 []).map Char.toLower)

/-- `headers.findIndex(...iat...)` with the `-1 ↦ 0` fallback. -/
def iatColOf (headers : List (List Char)) : ℕ :=
  (findIdxO headerHasIat headers).getD 0

/-- `headers.findIndex(...service...)` with the
`-1 ↦ Math.min(1, headers.length - 1)` fallback. -/
def stColOf (headers : List (List Char)) : ℕ :=
  (findIdxO headerHasSt headers).getD (min 1 (headers.length - 1))

/-- Body of the row loop of `parseCSV`: split the line on the delimiter
class, `parseFloat` the two selected cells (an out-of-range cell is the
empty string, which like JS's `undefined` fails to parse) and accept the
row only when both parse, the inter-arrival value is `≥ 0` and the
service value is `> 0`. -/
def parseRow (iatCol stCol : ℕ) (line : List Char) : Option DatasetRow :=
  match jsParseFloat ((splitOnPred isDelim line).getD iatCol []),
      jsParseFloat ((splitOnPred isDelim line).getD stCol []) with
  | some iat, some st =>
    if 0 ≤ iat ∧ 0 < st then some ⟨iat, st⟩ else none
  | _, _ => none

/-- `parseCSV` of the source. -/
def parseCSV (csvText : String) : List DatasetRow :=
  let lines := splitLines (jsTrim csvText.toList)
  if lines.length < 2 then []
  else
    (lines.drop 1).filterMap
      (parseRow (iatColOf (headersOf lines)) (stColOf (headersOf lines)))

def countLE (z : ℚ) : List ℚ → ℕ
  | [] => 0
  | x :: xs => (if x ≤ z then 1 else 0) + countLE z xs

def Dom (ft1 ft2 : List ℚ) : Prop := ∀ z : ℚ, countLE z ft1 ≤ countLE z ft2

/-- The entity was produced by one stepper invocation: some server state
of the right size reproduces all its timing fields and its (1-based)
server assignment. -/
def FromStep (n : ℕ) (c : CustomerRecord) : Prop :=
  ∃ ft : List ℚ, ft.length = n ∧ ft ≠ [] ∧
    (stepServers ft c.arrivalTime c.serviceTime).startServiceTime = c.startServiceTime ∧
    (stepServers ft c.arrivalTime c.serviceTime).waitTime = c.waitTime ∧
    (stepServers ft c.arrivalTime c.serviceTime).endServiceTime = c.endServiceTime ∧
    (stepServers ft c.arrivalTime c.serviceTime).serverIndex + 1 = c.serverAssigned

/-! ## Helper lemmas: list minimum, first index, list update -/

@[simp] theorem mkCustomer_id (n : ℕ) (rIAT rST ia t sv : ℚ) (s : StepOut) :
    (mkCustomer n rIAT rST ia t sv s).id = n := rfl
@[simp] theorem mkCustomer_randomIAT (n : ℕ) (rIAT rST ia t sv : ℚ) (s : StepOut) :
    (mkCustomer n rIAT rST ia t sv s).randomIAT = rIAT := rfl
@[simp] theorem mkCustomer_randomST (n : ℕ) (rIAT rST ia t sv : ℚ) (s : StepOut) :
    (mkCustomer n rIAT rST ia t sv s).randomST = rST := rfl
@[simp] theorem mkCustomer_interArrivalTime (n : ℕ) (rIAT rST ia t sv : ℚ) (s : StepOut) :
    (mkCustomer n rIAT rST ia t sv s).interArrivalTime = ia := rfl
@[simp] theorem mkCustomer_arrivalTime (n : ℕ) (rIAT rST ia t sv : ℚ) (s : StepOut) :
    (mkCustomer n rIAT rST ia t sv s).arrivalTime = t := rfl
@[simp] theorem mkCustomer_serviceTime (n : ℕ) (rIAT rST ia t sv : ℚ) (s : StepOut) :
    (mkCustomer n rIAT rST ia t sv s).serviceTime = sv := rfl
@[simp] theorem mkCustomer_waitTime (n : ℕ) (rIAT rST ia t sv : ℚ) (s : StepOut) :
    (mkCustomer n rIAT rST ia t sv s).waitTime = s.waitTime := rfl
@[simp] theorem mkCustomer_startServiceTime (n : ℕ) (rIAT rST ia t sv : ℚ) (s : StepOut) :
    (mkCustomer n rIAT rST ia t sv s).startServiceTime = s.startServiceTime := rfl
@[simp] theorem mkCustomer_endServiceTime (n : ℕ) (rIAT rST ia t sv : ℚ) (s : StepOut) :
    (mkCustomer n rIAT rST ia t sv s).endServiceTime = s.endServiceTime := rfl
@[simp] theorem mkCustomer_serverAssigned (n : ℕ) (rIAT rST ia t sv : ℚ) (s : StepOut) :
    (mkCustomer n rIAT rST ia t sv s).serverAssigned = s.serverIndex + 1 := rfl


theorem listMin_mem : ∀ l : List ℚ, l ≠ [] → listMin l ∈ l
  | [x], _ => by simp [listMin]
  | x :: y :: xs, _ => by
    rw [listMin]
    rcases min_choice x (listMin (y :: xs)) with h | h
    · rw [h]; exact List.mem_cons_self ..
    · rw [h]; exact List.mem_cons_of_mem _ (listMin_mem (y :: xs) (by simp))

theorem listMin_le : ∀ l : List ℚ, ∀ x ∈ l, listMin l ≤ x
  | [x], z, hz => by
    rcases List.mem_singleton.mp hz with rfl
    simp [listMin]
  | x :: y :: xs, z, hz => by
    rw [listMin]
    rcases List.mem_cons.mp hz with rfl | hz'
    · exact min_le_left _ _
    · exact le_trans (min_le_right _ _) (listMin_le (y :: xs) z hz')

theorem le_listMax : ∀ l : List ℚ, ∀ x ∈ l, x ≤ listMax l
  | [x], z, hz => by
    rcases List.mem_singleton.mp hz with rfl
    simp [listMax]
  | x :: y :: xs, z, hz => by
    rw [listMax]
    rcases List.mem_cons.mp hz with rfl | hz'
    · exact le_max_left _ _
    · exact le_trans (le_listMax (y :: xs) z hz') (le_max_right _ _)

theorem listMax_mem : ∀ l : List ℚ, l ≠ [] → listMax l ∈ l
  | [x], _ => by simp [listMax]
  | x :: y :: xs, _ => by
    rw [listMax]
    rcases max_choice x (listMax (y :: xs)) with h | h
    · rw [h]; exact List.mem_cons_self ..
    · rw [h]; exact List.mem_cons_of_mem _ (listMax_mem (y :: xs) (by simp))

theorem jsIndexOf_lt_length {x : ℚ} : ∀ {l : List ℚ}, x ∈ l → jsIndexOf x l < l.length
  | y :: ys, h => by
    rw [jsIndexOf]
    by_cases hy : y = x
    · simp [hy]
    · have : x ∈ ys := by
        rcases List.mem_cons.mp h with rfl | h' <;> [exact absurd rfl hy; exact h']
      simpa [hy] using jsIndexOf_lt_length this

theorem getD_jsIndexOf {x : ℚ} : ∀ {l : List ℚ}, x ∈ l → l.getD (jsIndexOf x l) 0 = x
  | y :: ys, h => by
    rw [jsIndexOf]
    by_cases hy : y = x
    · simp [hy]
    · have : x ∈ ys := by
        rcases List.mem_cons.mp h with rfl | h' <;> [exact absurd rfl hy; exact h']
      simpa [hy] using getD_jsIndexOf this

theorem getD_lt_jsIndexOf {x : ℚ} :
    ∀ {l : List ℚ} {j : ℕ}, j < jsIndexOf x l → l.getD j 0 ≠ x
  | [], j, h => by simp [jsIndexOf] at h
  | y :: ys, j, h => by
    rw [jsIndexOf] at h
    by_cases hy : y = x
    · simp [hy] at h
    · rw [if_neg hy] at h
      match j with
      | 0 => simpa using hy
      | j + 1 => simpa using getD_lt_jsIndexOf (Nat.lt_of_succ_lt_succ h)

theorem getD_set_self : ∀ (l : List ℚ) (i : ℕ) (v : ℚ), i < l.length →
    (l.set i v).getD i 0 = v
  | _ :: _, 0, v, _ => rfl
  | y :: ys, i + 1, v, h =>
    getD_set_self ys i v (Nat.lt_of_succ_lt_succ h)

/-! ## Stepper characterization -/

theorem stepServers_serverIndex_lt {ft : List ℚ} (h : ft ≠ []) (t s : ℚ) :
    (stepServers ft t s).serverIndex < ft.length :=
  jsIndexOf_lt_length (listMin_mem ft h)

theorem stepServers_getD_serverIndex {ft : List ℚ} (h : ft ≠ []) (t s : ℚ) :
    ft.getD (stepServers ft t s).serverIndex 0 = listMin ft :=
  getD_jsIndexOf (listMin_mem ft h)

theorem stepServers_start {ft : List ℚ} (h : ft ≠ []) (t s : ℚ) :
    (stepServers ft t s).startServiceTime = max t (listMin ft) := by
  have := stepServers_getD_serverIndex h t s
  simp only [stepServers] at this ⊢
  rw [this]

theorem stepServers_wait (ft : List ℚ) (t s : ℚ) :
    (stepServers ft t s).waitTime = (stepServers ft t s).startServiceTime - t := rfl

theorem stepServers_end (ft : List ℚ) (t s : ℚ) :
    (stepServers ft t s).endServiceTime = (stepServers ft t s).startServiceTime + s := rfl

theorem stepServers_finishTimes (ft : List ℚ) (t s : ℚ) :
    (stepServers ft t s).finishTimes =
      ft.set (stepServers ft t s).serverIndex (stepServers ft t s).endServiceTime := rfl

theorem stepServers_wait_nonneg (ft : List ℚ) (t s : ℚ) :
    0 ≤ (stepServers ft t s).waitTime := by
  simp only [stepServers]
  have := le_max_left t (ft.getD (jsIndexOf (listMin ft) ft) 0)
  linarith

theorem stepServers_finish_length (ft : List ℚ) (t s : ℚ) :
    (stepServers ft t s).finishTimes.length = ft.length := by
  rw [stepServers_finishTimes]; exact List.length_set ..

theorem stepServers_after {ft : List ℚ} (h : ft ≠ []) (t s : ℚ) :
    (stepServers ft t s).finishTimes.getD (stepServers ft t s).serverIndex 0 =
      (stepServers ft t s).endServiceTime := by
  rw [stepServers_finishTimes]
  exact getD_set_self _ _ _ (stepServers_serverIndex_lt h t s)

theorem stepServers_start_ge (ft : List ℚ) (t s : ℚ) :
    t ≤ (stepServers ft t s).startServiceTime := le_max_left _ _

/-! ## Capacity monotonicity: counting servers available by a deadline

`countLE z ft` counts the servers whose next-available time is at most
`z`.  `Dom ft1 ft2` says the system with state `ft2` always has at least
as many servers available by any deadline as the one with state `ft1`;
this is the inductive invariant behind "more servers never increases
waits". -/

theorem countLE_pos {z x : ℚ} : ∀ {l : List ℚ}, x ∈ l → x ≤ z → 0 < countLE z l
  | y :: ys, hx, hxz => by
    rw [countLE]
    rcases List.mem_cons.mp hx with rfl | h'
    · simp [hxz]
    · exact lt_of_lt_of_le (countLE_pos h' hxz) (Nat.le_add_left _ _)

theorem exists_le_of_countLE_pos {z : ℚ} :
    ∀ {l : List ℚ}, 0 < countLE z l → ∃ x ∈ l, x ≤ z
  | [], h => by simp [countLE] at h
  | y :: ys, h => by
    rw [countLE] at h
    by_cases hy : y ≤ z
    · exact ⟨y, List.mem_cons_self .., hy⟩
    · rw [if_neg hy] at h
      obtain ⟨x, hx, hxz⟩ := exists_le_of_countLE_pos (z := z) (l := ys) (by omega)
      exact ⟨x, List.mem_cons_of_mem _ hx, hxz⟩

theorem countLE_eq_zero {z : ℚ} : ∀ {l : List ℚ}, z < listMin l → l ≠ [] →
    countLE z l = 0
  | l, hz, hl => by
    by_contra h
    obtain ⟨x, hx, hxz⟩ := exists_le_of_countLE_pos (Nat.pos_of_ne_zero h)
    exact absurd (lt_of_le_of_lt (le_trans (listMin_le l x hx) hxz) hz) (lt_irrefl _)

theorem countLE_set_jsIndexOf {z v : ℚ} {m : ℚ} :
    ∀ {l : List ℚ}, m ∈ l →
      countLE z (l.set (jsIndexOf m l) v) + (if m ≤ z then 1 else 0) =
        countLE z l + (if v ≤ z then 1 else 0)
  | y :: ys, hm => by
    rw [jsIndexOf]
    by_cases hy : y = m
    · subst hy
      simp only [if_pos rfl, List.set_cons_zero, countLE]
      by_cases hmz : y ≤ z <;> by_cases hvz : v ≤ z <;> simp [hmz, hvz] <;> omega
    · have hm' : m ∈ ys := by
        rcases List.mem_cons.mp hm with rfl | h' <;> [exact absurd rfl hy; exact h']
      rw [if_neg hy, List.set_cons_succ, countLE, countLE]
      have := countLE_set_jsIndexOf (z := z) (v := v) hm'
      omega

theorem listMin_le_listMin {ft1 ft2 : List ℚ} (h1 : ft1 ≠ []) (h2 : ft2 ≠ [])
    (hD : Dom ft1 ft2) : listMin ft2 ≤ listMin ft1 := by
  have hpos : 0 < countLE (listMin ft1) ft1 :=
    countLE_pos (listMin_mem ft1 h1) le_rfl
  obtain ⟨x, hx, hxz⟩ := exists_le_of_countLE_pos (lt_of_lt_of_le hpos (hD _))
  exact le_trans (listMin_le ft2 x hx) hxz

theorem dom_step {ft1 ft2 : List ℚ} (h1 : ft1 ≠ []) (h2 : ft2 ≠ [])
    (hD : Dom ft1 ft2) (t s : ℚ) :
    Dom (stepServers ft1 t s).finishTimes (stepServers ft2 t s).finishTimes := by
  intro z
  have hm : listMin ft2 ≤ listMin ft1 := listMin_le_listMin h1 h2 hD
  have he : max t (listMin ft2) + s ≤ max t (listMin ft1) + s :=
    add_le_add_right (max_le_max le_rfl hm) s
  have hend1 : (stepServers ft1 t s).endServiceTime = max t (listMin ft1) + s := by
    rw [stepServers_end, stepServers_start h1]
  have hend2 : (stepServers ft2 t s).endServiceTime = max t (listMin ft2) + s := by
    rw [stepServers_end, stepServers_start h2]
  have hidx1 : (stepServers ft1 t s).serverIndex = jsIndexOf (listMin ft1) ft1 := rfl
  have hidx2 : (stepServers ft2 t s).serverIndex = jsIndexOf (listMin ft2) ft2 := rfl
  have key1 := countLE_set_jsIndexOf (z := z) (v := max t (listMin ft1) + s)
    (listMin_mem ft1 h1)
  have key2 := countLE_set_jsIndexOf (z := z) (v := max t (listMin ft2) + s)
    (listMin_mem ft2 h2)
  rw [stepServers_finishTimes, stepServers_finishTimes, hidx1, hidx2, hend1, hend2]
  have hd := hD z
  have hb2 : (if listMin ft2 ≤ z then 1 else 0) ≤ countLE z ft2 := by
    split
    · exact countLE_pos (listMin_mem ft2 h2) (by assumption)
    · exact Nat.zero_le _
  by_cases hm1 : listMin ft1 ≤ z
  · have hm2 : listMin ft2 ≤ z := le_trans hm hm1
    have hee : (if max t (listMin ft1) + s ≤ z then 1 else 0) ≤
        (if max t (listMin ft2) + s ≤ z then 1 else 0) := by
      split
      · rw [if_pos (le_trans he (by assumption))]
      · exact Nat.zero_le _
    rw [if_pos hm1] at key1
    rw [if_pos hm2] at key2
    omega
  · have ha0 : countLE z ft1 = 0 :=
      countLE_eq_zero (lt_of_not_le hm1) h1
    rw [if_neg hm1, ha0] at key1
    have hee : (if max t (listMin ft1) + s ≤ z then 1 else 0) ≤
        (if max t (listMin ft2) + s ≤ z then 1 else 0) := by
      split
      · rw [if_pos (le_trans he (by assumption))]
      · exact Nat.zero_le _
    omega

theorem countLE_replicate (z : ℚ) (n : ℕ) :
    countLE z (List.replicate n 0) = if (0 : ℚ) ≤ z then n else 0 := by
  induction n with
  | zero => simp [countLE]
  | succ n ih =>
    rw [List.replicate_succ, countLE, ih]
    split <;> omega

theorem dom_replicate {c1 c2 : ℕ} (h : c1 ≤ c2) :
    Dom (List.replicate c1 0) (List.replicate c2 0) := by
  intro z
  rw [countLE_replicate, countLE_replicate]
  split <;> omega

/-! ## Dataset-loop lemmas -/

theorem runFromDatasetLoop_length :
    ∀ (rows : List DatasetRow) (i : ℕ) (t : ℚ) (ft : List ℚ),
      (runFromDatasetLoop rows i t ft).length = rows.length
  | [], _, _, _ => rfl
  | row :: rest, i, t, ft => by
    rw [runFromDatasetLoop]
    simpa using runFromDatasetLoop_length rest (i + 1) _ _

theorem runFromDatasetLoop_ids :
    ∀ (rows : List DatasetRow) (i : ℕ) (t : ℚ) (ft : List ℚ),
      (runFromDatasetLoop rows i t ft).map (·.id) =
        List.range' (i + 1) rows.length
  | [], _, _, _ => rfl
  | row :: rest, i, t, ft => by
    rw [runFromDatasetLoop]
    simp only [List.map_cons, mkCustomer_id, List.length_cons, List.range'_succ]
    exact congrArg _ (runFromDatasetLoop_ids rest (i + 1) _ _)

theorem runFromDatasetLoop_wait_end :
    ∀ (rows : List DatasetRow) (i : ℕ) (t : ℚ) (ft : List ℚ),
      ∀ c ∈ runFromDatasetLoop rows i t ft,
        0 ≤ c.waitTime ∧ c.endServiceTime = c.startServiceTime + c.serviceTime
  | row :: rest, i, t, ft, c, hc => by
    rw [runFromDatasetLoop] at hc
    rcases List.mem_cons.mp hc with rfl | hc'
    · simp only [mkCustomer_waitTime, mkCustomer_endServiceTime,
        mkCustomer_startServiceTime, mkCustomer_serviceTime]
      exact ⟨stepServers_wait_nonneg _ _ _, stepServers_end _ _ _⟩
    · exact runFromDatasetLoop_wait_end rest _ _ _ c hc'

theorem runFromDatasetLoop_service :
    ∀ (rows : List DatasetRow) (i : ℕ) (t : ℚ) (ft : List ℚ),
      ∀ c ∈ runFromDatasetLoop rows i t ft,
        ∃ r ∈ rows, c.serviceTime = r.serviceTime
  | row :: rest, i, t, ft, c, hc => by
    rw [runFromDatasetLoop] at hc
    rcases List.mem_cons.mp hc with rfl | hc'
    · exact ⟨row, List.mem_cons_self .., rfl⟩
    · obtain ⟨r, hr, he⟩ := runFromDatasetLoop_service rest _ _ _ c hc'
      exact ⟨r, List.mem_cons_of_mem _ hr, he⟩

theorem runFromDatasetLoop_server :
    ∀ (rows : List DatasetRow) (i : ℕ) (t : ℚ) (ft : List ℚ), ft ≠ [] →
      ∀ c ∈ runFromDatasetLoop rows i t ft,
        1 ≤ c.serverAssigned ∧ c.serverAssigned ≤ ft.length
  | row :: rest, i, t, ft, hft, c, hc => by
    rw [runFromDatasetLoop] at hc
    rcases List.mem_cons.mp hc with rfl | hc'
    · exact ⟨Nat.succ_le_succ (Nat.zero_le _),
        stepServers_serverIndex_lt hft _ _⟩
    · have hlen := stepServers_finish_length ft
        (t + if i = 0 then 0 else row.interArrivalTime) row.serviceTime
      have hne : (stepServers ft (t + if i = 0 then 0 else row.interArrivalTime)
          row.serviceTime).finishTimes ≠ [] := by
        intro hnil
        rw [hnil] at hlen
        exact hft (List.eq_nil_of_length_eq_zero hlen.symm)
      have := runFromDatasetLoop_server rest _ _ _ hne c hc'
      rwa [hlen] at this

theorem runFromDatasetLoop_arrival_ge :
    ∀ (rows : List DatasetRow) (i : ℕ) (t : ℚ) (ft : List ℚ),
      (∀ r ∈ rows, 0 ≤ r.interArrivalTime) →
      ∀ c ∈ runFromDatasetLoop rows i t ft, t ≤ c.arrivalTime
  | row :: rest, i, t, ft, hrows, c, hc => by
    rw [runFromDatasetLoop] at hc
    have hia : 0 ≤ (if i = 0 then 0 else row.interArrivalTime) := by
      split
      · exact le_rfl
      · exact hrows row (List.mem_cons_self ..)
    have ht : t ≤ t + (if i = 0 then 0 else row.interArrivalTime) := by linarith
    rcases List.mem_cons.mp hc with rfl | hc'
    · exact ht
    · exact le_trans ht (runFromDatasetLoop_arrival_ge rest _ _ _
        (fun r hr => hrows r (List.mem_cons_of_mem _ hr)) c hc')

theorem runFromDatasetLoop_sorted :
    ∀ (rows : List DatasetRow) (i : ℕ) (t : ℚ) (ft : List ℚ),
      (∀ r ∈ rows, 0 ≤ r.interArrivalTime) →
      List.Pairwise (· ≤ ·) ((runFromDatasetLoop rows i t ft).map (·.arrivalTime))
  | [], _, _, _, _ => List.Pairwise.nil
  | row :: rest, i, t, ft, hrows => by
    rw [runFromDatasetLoop]
    have hrest : ∀ r ∈ rest, 0 ≤ r.interArrivalTime :=
      fun r hr => hrows r (List.mem_cons_of_mem _ hr)
    refine List.pairwise_cons.mpr ⟨?_, runFromDatasetLoop_sorted rest _ _ _ hrest⟩
    intro a ha
    obtain ⟨c, hc, rfl⟩ := List.mem_map.mp ha
    exact runFromDatasetLoop_arrival_ge rest _ _ _ hrest c hc

theorem runFromDatasetLoop_fromStep :
    ∀ (rows : List DatasetRow) (i : ℕ) (t : ℚ) (ft : List ℚ), ft ≠ [] →
      ∀ c ∈ runFromDatasetLoop rows i t ft, FromStep ft.length c
  | row :: rest, i, t, ft, hft, c, hc => by
    rw [runFromDatasetLoop] at hc
    rcases List.mem_cons.mp hc with rfl | hc'
    · exact ⟨ft, rfl, hft, rfl, rfl, rfl, rfl⟩
    · have hlen := stepServers_finish_length ft
        (t + if i = 0 then 0 else row.interArrivalTime) row.serviceTime
      have hne : (stepServers ft (t + if i = 0 then 0 else row.interArrivalTime)
          row.serviceTime).finishTimes ≠ [] := by
        intro hnil
        rw [hnil] at hlen
        exact hft (List.eq_nil_of_length_eq_zero hlen.symm)
      have := runFromDatasetLoop_fromStep rest _ _ _ hne c hc'
      rwa [hlen] at this

theorem runFromDatasetLoop_waitSum_mono :
    ∀ (rows : List DatasetRow) (i : ℕ) (t : ℚ) (ft1 ft2 : List ℚ),
      ft1 ≠ [] → ft2 ≠ [] → Dom ft1 ft2 →
      ((runFromDatasetLoop rows i t ft2).map (·.waitTime)).sum ≤
        ((runFromDatasetLoop rows i t ft1).map (·.waitTime)).sum
  | [], _, _, _, _, _, _, _ => le_rfl
  | row :: rest, i, t, ft1, ft2, h1, h2, hD => by
    rw [runFromDatasetLoop, runFromDatasetLoop]
    simp only [List.map_cons, List.sum_cons, mkCustomer_waitTime]
    have hm : listMin ft2 ≤ listMin ft1 := listMin_le_listMin h1 h2 hD
    set t' := t + (if i = 0 then 0 else row.interArrivalTime) with ht'
    have hw : (stepServers ft2 t' row.serviceTime).waitTime ≤
        (stepServers ft1 t' row.serviceTime).waitTime := by
      rw [stepServers_wait, stepServers_wait, stepServers_start h1,
        stepServers_start h2]
      have := max_le_max (le_refl t') hm
      linarith
    have hlen1 := stepServers_finish_length ft1 t' row.serviceTime
    have hlen2 := stepServers_finish_length ft2 t' row.serviceTime
    have hne1 : (stepServers ft1 t' row.serviceTime).finishTimes ≠ [] := by
      intro hnil
      rw [hnil] at hlen1
      exact h1 (List.eq_nil_of_length_eq_zero hlen1.symm)
    have hne2 : (stepServers ft2 t' row.serviceTime).finishTimes ≠ [] := by
      intro hnil
      rw [hnil] at hlen2
      exact h2 (List.eq_nil_of_length_eq_zero hlen2.symm)
    have hrec := runFromDatasetLoop_waitSum_mono rest (i + 1) t' _ _
      hne1 hne2 (dom_step h1 h2 hD t' row.serviceTime)
    linarith

/-! ## Random-draw loop lemmas -/

theorem firstIAT_nonneg (cid : ℕ) {v : ℚ} (hv : 0 ≤ v) : 0 ≤ firstIAT cid v := by
  rw [firstIAT]
  split
  · exact le_rfl
  · exact hv

theorem runSimLoop_ids (sampler : ℕ → Sample) (duration : ℚ) :
    ∀ (fuel : ℕ) (t : ℚ) (cid di : ℕ) (ft : List ℚ),
      (runSimLoop sampler duration fuel t cid di ft).map (·.id) =
        List.range' (cid + 1) (runSimLoop sampler duration fuel t cid di ft).length
  | 0, _, _, _, _ => rfl
  | fuel + 1, t, cid, di, ft => by
    rw [runSimLoop]
    dsimp only
    split_ifs
    · rfl
    · simp only [List.map_cons, List.length_cons, List.range'_succ, mkCustomer_id]
      exact congrArg _ (runSimLoop_ids sampler duration fuel _ _ _ _)
    · rfl

theorem runSimLoop_wait_end (sampler : ℕ → Sample) (duration : ℚ) :
    ∀ (fuel : ℕ) (t : ℚ) (cid di : ℕ) (ft : List ℚ),
      ∀ c ∈ runSimLoop sampler duration fuel t cid di ft,
        0 ≤ c.waitTime ∧ c.endServiceTime = c.startServiceTime + c.serviceTime
  | fuel + 1, t, cid, di, ft, c, hc => by
    rw [runSimLoop] at hc
    dsimp only at hc
    split_ifs at hc
    · exact absurd hc (List.not_mem_nil c)
    · rcases List.mem_cons.mp hc with rfl | hc'
      · simp only [mkCustomer_waitTime, mkCustomer_endServiceTime,
          mkCustomer_startServiceTime, mkCustomer_serviceTime]
        exact ⟨stepServers_wait_nonneg _ _ _, stepServers_end _ _ _⟩
      · exact runSimLoop_wait_end sampler duration fuel _ _ _ _ c hc'
    · exact absurd hc (List.not_mem_nil c)

theorem runSimLoop_service_nonneg (sampler : ℕ → Sample) (duration : ℚ)
    (hs : ∀ k, 0 ≤ (sampler k).value) :
    ∀ (fuel : ℕ) (t : ℚ) (cid di : ℕ) (ft : List ℚ),
      ∀ c ∈ runSimLoop sampler duration fuel t cid di ft, 0 ≤ c.serviceTime
  | fuel + 1, t, cid, di, ft, c, hc => by
    rw [runSimLoop] at hc
    dsimp only at hc
    split_ifs at hc
    · exact absurd hc (List.not_mem_nil c)
    · rcases List.mem_cons.mp hc with rfl | hc'
      · simpa only [mkCustomer_serviceTime] using hs (di + 1)
      · exact runSimLoop_service_nonneg sampler duration hs fuel _ _ _ _ c hc'
    · exact absurd hc (List.not_mem_nil c)

theorem runSimLoop_server (sampler : ℕ → Sample) (duration : ℚ) :
    ∀ (fuel : ℕ) (t : ℚ) (cid di : ℕ) (ft : List ℚ), ft ≠ [] →
      ∀ c ∈ runSimLoop sampler duration fuel t cid di ft,
        1 ≤ c.serverAssigned ∧ c.serverAssigned ≤ ft.length
  | fuel + 1, t, cid, di, ft, hft, c, hc => by
    rw [runSimLoop] at hc
    dsimp only at hc
    split_ifs at hc
    · exact absurd hc (List.not_mem_nil c)
    · rcases List.mem_cons.mp hc with rfl | hc'
      · exact ⟨Nat.succ_le_succ (Nat.zero_le _), stepServers_serverIndex_lt hft _ _⟩
      · have hlen := stepServers_finish_length ft (t + firstIAT (cid + 1) (sampler di).value)
          (sampler (di + 1)).value
        have hne : (stepServers ft (t + firstIAT (cid + 1) (sampler di).value)
            (sampler (di + 1)).value).finishTimes ≠ [] := by
          intro hnil
          rw [hnil] at hlen
          exact hft (List.eq_nil_of_length_eq_zero hlen.symm)
        have := runSimLoop_server sampler duration fuel _ _ _ _ hne c hc'
        rwa [hlen] at this
    · exact absurd hc (List.not_mem_nil c)

theorem runSimLoop_arrival_ge (sampler : ℕ → Sample) (duration : ℚ)
    (hs : ∀ k, 0 ≤ (sampler k).value) :
    ∀ (fuel : ℕ) (t : ℚ) (cid di : ℕ) (ft : List ℚ),
      ∀ c ∈ runSimLoop sampler duration fuel t cid di ft, t ≤ c.arrivalTime
  | fuel + 1, t, cid, di, ft, c, hc => by
    rw [runSimLoop] at hc
    dsimp only at hc
    split_ifs at hc
    · exact absurd hc (List.not_mem_nil c)
    · have ht : t ≤ t + firstIAT (cid + 1) (sampler di).value := by
        have := firstIAT_nonneg (cid + 1) (hs di)
        linarith
      rcases List.mem_cons.mp hc with rfl | hc'
      · exact ht
      · exact le_trans ht (runSimLoop_arrival_ge sampler duration hs fuel _ _ _ _ c hc')
    · exact absurd hc (List.not_mem_nil c)

theorem runSimLoop_sorted (sampler : ℕ → Sample) (duration : ℚ)
    (hs : ∀ k, 0 ≤ (sampler k).value) :
    ∀ (fuel : ℕ) (t : ℚ) (cid di : ℕ) (ft : List ℚ),
      List.Pairwise (· ≤ ·)
        ((runSimLoop sampler duration fuel t cid di ft).map (·.arrivalTime))
  | 0, _, _, _, _ => List.Pairwise.nil
  | fuel + 1, t, cid, di, ft => by
    rw [runSimLoop]
    dsimp only
    split_ifs
    · exact List.Pairwise.nil
    · simp only [List.map_cons, mkCustomer_arrivalTime]
      refine List.pairwise_cons.mpr ⟨?_, runSimLoop_sorted sampler duration hs fuel _ _ _ _⟩
      intro a ha
      obtain ⟨c, hc, rfl⟩ := List.mem_map.mp ha
      exact runSimLoop_arrival_ge sampler duration hs fuel _ _ _ _ c hc
    · exact List.Pairwise.nil

theorem runSimLoop_fromStep (sampler : ℕ → Sample) (duration : ℚ) :
    ∀ (fuel : ℕ) (t : ℚ) (cid di : ℕ) (ft : List ℚ), ft ≠ [] →
      ∀ c ∈ runSimLoop sampler duration fuel t cid di ft, FromStep ft.length c
  | fuel + 1, t, cid, di, ft, hft, c, hc => by
    rw [runSimLoop] at hc
    dsimp only at hc
    split_ifs at hc
    · exact absurd hc (List.not_mem_nil c)
    · rcases List.mem_cons.mp hc with rfl | hc'
      · exact ⟨ft, rfl, hft, rfl, rfl, rfl, rfl⟩
      · have hlen := stepServers_finish_length ft (t + firstIAT (cid + 1) (sampler di).value)
          (sampler (di + 1)).value
        have hne : (stepServers ft (t + firstIAT (cid + 1) (sampler di).value)
            (sampler (di + 1)).value).finishTimes ≠ [] := by
          intro hnil
          rw [hnil] at hlen
          exact hft (List.eq_nil_of_length_eq_zero hlen.symm)
        have := runSimLoop_fromStep sampler duration fuel _ _ _ _ hne c hc'
        rwa [hlen] at this
    · exact absurd hc (List.not_mem_nil c)

/-! ## Aggregator lemmas -/

theorem computeResults_customers (cs : List CustomerRecord) (c : ℕ) (d r : ℚ) :
    (computeResults cs c d r).customers = cs := by
  rw [computeResults]
  split
  · next h => rw [List.isEmpty_iff.mp h]
  · rfl

theorem computeResults_counts (cs : List CustomerRecord) (c : ℕ) (d r : ℚ) :
    (computeResults cs c d r).customersServed = cs.length ∧
      (computeResults cs c d r).totalCustomers = cs.length := by
  rw [computeResults]
  split
  · next h => rw [List.isEmpty_iff.mp h]; exact ⟨rfl, rfl⟩
  · exact ⟨rfl, rfl⟩

theorem computeResults_avgWaitTime (cs : List CustomerRecord) (c : ℕ) (d r : ℚ) :
    (computeResults cs c d r).avgWaitTime =
      if cs = [] then 0 else (cs.map (·.waitTime)).sum / (cs.length : ℚ) := by
  rw [computeResults]
  split
  · next h => rw [if_pos (List.isEmpty_iff.mp h)]
  · next h =>
      rw [if_neg (by simpa [List.isEmpty_iff] using h)]

theorem computeResults_maxWaitTime (cs : List CustomerRecord) (c : ℕ) (d r : ℚ) :
    (computeResults cs c d r).maxWaitTime =
      if cs = [] then 0 else listMax (cs.map (·.waitTime)) := by
  rw [computeResults]
  split
  · next h => rw [if_pos (List.isEmpty_iff.mp h)]
  · next h =>
      rw [if_neg (by simpa [List.isEmpty_iff] using h)]

theorem computeResults_avgQueueLength (cs : List CustomerRecord) (c : ℕ) (d r : ℚ) :
    (computeResults cs c d r).avgQueueLength =
      if cs = [] then 0 else r * ((cs.map (·.waitTime)).sum / (cs.length : ℚ)) := by
  rw [computeResults]
  split
  · next h => rw [if_pos (List.isEmpty_iff.mp h)]
  · next h =>
      rw [if_neg (by simpa [List.isEmpty_iff] using h)]

theorem computeResults_serverUtilization (cs : List CustomerRecord) (c : ℕ) (d r : ℚ) :
    (computeResults cs c d r).serverUtilization =
      if cs = [] then 0
      else min (if 0 < d then (cs.map (·.serviceTime)).sum / ((c : ℚ) * d) * 100 else 0) 100 := by
  rw [computeResults]
  split
  · next h => rw [if_pos (List.isEmpty_iff.mp h)]
  · next h =>
      rw [if_neg (by simpa [List.isEmpty_iff] using h)]

theorem computeResults_empty (c : ℕ) (d r : ℚ) :
    computeResults [] c d r =
      { customers := []
        avgWaitTime := 0
        maxWaitTime := 0
        avgQueueLength := 0
        serverUtilization := 0
        totalCustomers := 0
        customersServed := 0 } := rfl

theorem computeResults_util_bounds (cs : List CustomerRecord) (c : ℕ) (d r : ℚ)
    (hc : 1 ≤ c) (hs : 0 ≤ (cs.map (·.serviceTime)).sum) :
    0 ≤ (computeResults cs c d r).serverUtilization ∧
      (computeResults cs c d r).serverUtilization ≤ 100 := by
  rw [computeResults_serverUtilization]
  split
  · norm_num
  · refine ⟨le_min ?_ (by norm_num), min_le_right _ _⟩
    split
    · next hd =>
        have hcd : (0 : ℚ) < (c : ℚ) * d := by
          have : (0 : ℚ) < (c : ℚ) := by exact_mod_cast hc
          exact mul_pos this hd
        have := div_nonneg hs (le_of_lt hcd)
        linarith
    · exact le_rfl

/-! ## Run-function wrappers -/

theorem runSimulationFromDataset_customers (dataset : List DatasetRow) (c : ℕ) :
    (runSimulationFromDataset dataset c).customers =
      runFromDatasetLoop dataset 0 0 (List.replicate c 0) := by
  rw [runSimulationFromDataset]
  exact computeResults_customers ..

theorem runSimulation_customers (params : SimulationParams) (sampler : ℕ → Sample)
    (fuel : ℕ) :
    (runSimulation params sampler fuel).customers =
      runSimLoop sampler params.duration fuel 0 0 0 (List.replicate params.numServers 0) := by
  rw [runSimulation]
  exact computeResults_customers ..

/-! ## Miscellaneous helpers for the claim theorems -/

theorem getD_mem : ∀ (l : List ℚ) (j : ℕ), j < l.length → l.getD j 0 ∈ l
  | x :: xs, 0, _ => List.mem_cons_self ..
  | x :: xs, j + 1, h =>
    List.mem_cons_of_mem _ (getD_mem xs j (Nat.lt_of_succ_lt_succ h))

theorem replicate_ne_nil {c : ℕ} (hc : 1 ≤ c) : (List.replicate c (0 : ℚ)) ≠ [] := by
  intro h
  have := congrArg List.length h
  rw [List.length_replicate] at this
  simp at this
  omega

theorem runFromDatasetLoop_ne_nil {dataset : List DatasetRow} (hd : dataset ≠ [])
    (i : ℕ) (t : ℚ) (ft : List ℚ) : runFromDatasetLoop dataset i t ft ≠ [] := by
  intro h
  have := congrArg List.length h
  rw [runFromDatasetLoop_length] at this
  exact hd (List.eq_nil_of_length_eq_zero this)

theorem runSimulationFromDataset_avgWaitTime (dataset : List DatasetRow) (c : ℕ) :
    (runSimulationFromDataset dataset c).avgWaitTime =
      if runFromDatasetLoop dataset 0 0 (List.replicate c 0) = [] then 0
      else ((runFromDatasetLoop dataset 0 0 (List.replicate c 0)).map (·.waitTime)).sum /
        ((runFromDatasetLoop dataset 0 0 (List.replicate c 0)).length : ℚ) := by
  rw [runSimulationFromDataset]
  exact computeResults_avgWaitTime ..

/-! ## The claims -/

/-- C1.  For every entity processed by `runSimulation` or
`runSimulationFromDataset`, the stepper selects the server whose
next-available time is minimal over all servers, breaking ties by lowest
index (every index before the chosen one is strictly above the minimum);
it sets `startServiceTime = max(arrivalTime, chosen)`, `waitTime =
startServiceTime - arrivalTime`, `endServiceTime = startServiceTime +
serviceTime`, writes `endServiceTime` back to the chosen server, and
records the chosen server's 1-based index on the entity (the `FromStep`
conjuncts: every entity either run emits is produced by exactly such a
stepper invocation against a server state of the run's size). -/
theorem c1_stepper_assignment (ft : List ℚ) (a sv : ℚ) (hft : ft ≠ [])
    (dataset : List DatasetRow) (c : ℕ) (hc : 1 ≤ c)
    (params : SimulationParams) (sampler : ℕ → Sample) (fuel : ℕ)
    (hp : 1 ≤ params.numServers) :
    ((stepServers ft a sv).serverIndex < ft.length ∧
      ft.getD (stepServers ft a sv).serverIndex 0 = listMin ft ∧
      (∀ j, j < ft.length → listMin ft ≤ ft.getD j 0) ∧
      (∀ j, j < (stepServers ft a sv).serverIndex → listMin ft < ft.getD j 0) ∧
      (stepServers ft a sv).startServiceTime = max a (listMin ft) ∧
      (stepServers ft a sv).waitTime = (stepServers ft a sv).startServiceTime - a ∧
      (stepServers ft a sv).endServiceTime = (stepServers ft a sv).startServiceTime + sv ∧
      (stepServers ft a sv).finishTimes =
        ft.set (stepServers ft a sv).serverIndex (stepServers ft a sv).endServiceTime) ∧
    (∀ cust ∈ (runSimulationFromDataset dataset c).customers, FromStep c cust) ∧
    (∀ cust ∈ (runSimulation params sampler fuel).customers,
      FromStep params.numServers cust) := by
  refine ⟨⟨stepServers_serverIndex_lt hft a sv, stepServers_getD_serverIndex hft a sv,
    ?_, ?_, stepServers_start hft a sv, stepServers_wait ft a sv, stepServers_end ft a sv,
    stepServers_finishTimes ft a sv⟩, ?_, ?_⟩
  · intro j hj
    exact listMin_le ft _ (getD_mem ft j hj)
  · intro j hj
    have hlt : j < ft.length := lt_trans hj (stepServers_serverIndex_lt hft a sv)
    have hne : ft.getD j 0 ≠ listMin ft := getD_lt_jsIndexOf hj
    exact lt_of_le_of_ne (listMin_le ft _ (getD_mem ft j hlt)) (Ne.symm hne)
  · intro cust hcust
    rw [runSimulationFromDataset_customers] at hcust
    have := runFromDatasetLoop_fromStep dataset 0 0 _ (replicate_ne_nil hc) cust hcust
    rwa [List.length_replicate] at this
  · intro cust hcust
    rw [runSimulation_customers] at hcust
    have := runSimLoop_fromStep sampler params.duration fuel 0 0 0 _
      (replicate_ne_nil hp) cust hcust
    rwa [List.length_replicate] at this

/-- C2.  For both run functions (under the stated input constraints; the
sampler stream of `runSimulation` delivers nonnegative sample values, as
`-ln(R)/rate` does for a positive rate): entity ids are exactly `1..N`
in order, arrival times are non-decreasing across the sequence, every
wait time is nonnegative, `endServiceTime = startServiceTime +
serviceTime`, and immediately after each assignment the assigned
server's next-available time equals that entity's `endServiceTime` (the
final, step-level conjunct). -/
theorem c2_run_invariants (dataset : List DatasetRow) (c : ℕ) (hc : 1 ≤ c)
    (hrows : ∀ r ∈ dataset, 0 ≤ r.interArrivalTime ∧ 0 < r.serviceTime)
    (params : SimulationParams) (sampler : ℕ → Sample) (fuel : ℕ)
    (harr : 0 < params.arrivalRate) (hsrv : 0 < params.serviceRate)
    (hns : 1 ≤ params.numServers) (hdur : 0 < params.duration)
    (hsampler : ∀ k, 0 ≤ (sampler k).value) :
    ((runSimulationFromDataset dataset c).customers.map (·.id) =
        List.range' 1 (runSimulationFromDataset dataset c).customers.length ∧
      List.Pairwise (· ≤ ·)
        ((runSimulationFromDataset dataset c).customers.map (·.arrivalTime)) ∧
      ∀ cust ∈ (runSimulationFromDataset dataset c).customers,
        0 ≤ cust.waitTime ∧
          cust.endServiceTime = cust.startServiceTime + cust.serviceTime) ∧
    ((runSimulation params sampler fuel).customers.map (·.id) =
        List.range' 1 (runSimulation params sampler fuel).customers.length ∧
      List.Pairwise (· ≤ ·)
        ((runSimulation params sampler fuel).customers.map (·.arrivalTime)) ∧
      ∀ cust ∈ (runSimulation params sampler fuel).customers,
        0 ≤ cust.waitTime ∧
          cust.endServiceTime = cust.startServiceTime + cust.serviceTime) ∧
    (∀ (ft : List ℚ) (a sv : ℚ), ft ≠ [] →
      (stepServers ft a sv).finishTimes.getD (stepServers ft a sv).serverIndex 0 =
        (stepServers ft a sv).endServiceTime) := by
  refine ⟨⟨?_, ?_, ?_⟩, ⟨?_, ?_, ?_⟩, fun ft a sv h => stepServers_after h a sv⟩
  · rw [runSimulationFromDataset_customers, runFromDatasetLoop_length,
      runFromDatasetLoop_ids]
  · rw [runSimulationFromDataset_customers]
    exact runFromDatasetLoop_sorted dataset 0 0 _ (fun r hr => (hrows r hr).1)
  · intro cust hcust
    rw [runSimulationFromDataset_customers] at hcust
    exact runFromDatasetLoop_wait_end dataset 0 0 _ cust hcust
  · rw [runSimulation_customers]
    exact runSimLoop_ids sampler params.duration fuel 0 0 0 _
  · rw [runSimulation_customers]
    exact runSimLoop_sorted sampler params.duration hsampler fuel 0 0 0 _
  · intro cust hcust
    rw [runSimulation_customers] at hcust
    exact runSimLoop_wait_end sampler params.duration fuel 0 0 0 _ cust hcust

/-- C3.  For a fixed dataset, increasing the server count never
increases the average wait time returned by
`runSimulationFromDataset`. -/
theorem c3_more_servers_no_worse (dataset : List DatasetRow) (c1 c2 : ℕ)
    (h1 : 1 ≤ c1) (h12 : c1 < c2) :
    (runSimulationFromDataset dataset c2).avgWaitTime ≤
      (runSimulationFromDataset dataset c1).avgWaitTime := by
  rw [runSimulationFromDataset_avgWaitTime, runSimulationFromDataset_avgWaitTime]
  rcases eq_or_ne dataset [] with rfl | hd
  · simp [runFromDatasetLoop]
  · have hne1 := runFromDatasetLoop_ne_nil hd 0 0 (List.replicate c1 0)
    have hne2 := runFromDatasetLoop_ne_nil hd 0 0 (List.replicate c2 0)
    rw [if_neg hne2, if_neg hne1, runFromDatasetLoop_length, runFromDatasetLoop_length]
    have hsum := runFromDatasetLoop_waitSum_mono dataset 0 0 _ _
      (replicate_ne_nil h1) (replicate_ne_nil (le_trans h1 (le_of_lt h12)))
      (dom_replicate (le_of_lt h12))
    have hn : (0 : ℚ) < (dataset.length : ℚ) := by
      have hlen : dataset.length ≠ 0 := fun h => hd (List.eq_nil_of_length_eq_zero h)
      exact_mod_cast Nat.pos_of_ne_zero hlen
    exact (div_le_div_right hn).mpr hsum

/-- C9.  For both run functions, `customersServed = totalCustomers =
length of the returned customers array`. -/
theorem c9_counts_agree (dataset : List DatasetRow) (c : ℕ)
    (params : SimulationParams) (sampler : ℕ → Sample) (fuel : ℕ) :
    ((runSimulationFromDataset dataset c).customersServed =
        (runSimulationFromDataset dataset c).totalCustomers ∧
      (runSimulationFromDataset dataset c).totalCustomers =
        (runSimulationFromDataset dataset c).customers.length) ∧
    ((runSimulation params sampler fuel).customersServed =
        (runSimulation params sampler fuel).totalCustomers ∧
      (runSimulation params sampler fuel).totalCustomers =
        (runSimulation params sampler fuel).customers.length) := by
  have key : ∀ (cs : List CustomerRecord) (n : ℕ) (d r : ℚ),
      (computeResults cs n d r).customersServed =
        (computeResults cs n d r).totalCustomers ∧
      (computeResults cs n d r).totalCustomers =
        (computeResults cs n d r).customers.length := by
    intro cs n d r
    obtain ⟨h1, h2⟩ := computeResults_counts cs n d r
    rw [computeResults_customers, h1, h2]
    exact ⟨rfl, rfl⟩
  constructor
  · rw [runSimulationFromDataset]
    exact key ..
  · rw [runSimulation]
    exact key ..

/-- C10.  With an integral server count `≥ 1`, every emitted entity's
`serverAssigned` lies in `1..numServers`, and the underlying minimum
search always yields an in-range index (never the `-1` / out-of-bounds
case). -/
theorem c10_server_assignment_in_range (dataset : List DatasetRow) (c : ℕ)
    (hc : 1 ≤ c) (params : SimulationParams) (sampler : ℕ → Sample) (fuel : ℕ)
    (hp : 1 ≤ params.numServers) :
    (∀ cust ∈ (runSimulationFromDataset dataset c).customers,
      1 ≤ cust.serverAssigned ∧ cust.serverAssigned ≤ c) ∧
    (∀ cust ∈ (runSimulation params sampler fuel).customers,
      1 ≤ cust.serverAssigned ∧ cust.serverAssigned ≤ params.numServers) ∧
    (∀ (ft : List ℚ) (a sv : ℚ), ft ≠ [] →
      (stepServers ft a sv).serverIndex < ft.length) := by
  refine ⟨?_, ?_, fun ft a sv h => stepServers_serverIndex_lt h a sv⟩
  · intro cust hcust
    rw [runSimulationFromDataset_customers] at hcust
    have := runFromDatasetLoop_server dataset 0 0 _ (replicate_ne_nil hc) cust hcust
    rwa [List.length_replicate] at this
  · intro cust hcust
    rw [runSimulation_customers] at hcust
    have := runSimLoop_server sampler params.duration fuel 0 0 0 _
      (replicate_ne_nil hp) cust hcust
    rwa [List.length_replicate] at this



/-- C4.  Dataset round-trip: parsing the blob with header `iat,service`
and rows `2,3` / `4,1` yields exactly the pairs `(2,3)` and `(4,1)`, and
running `runSimulationFromDataset` on those two pairs with one server
produces entity 1 with `arrivalTime = 0`, `waitTime = 0`,
`endServiceTime = 3` and entity 2 with `arrivalTime = 4`,
`startServiceTime = 4`, `waitTime = 0`, `endServiceTime = 5`. -/
theorem c4_dataset_roundtrip :
    parseCSV "iat,service\n2,3\n4,1" = [⟨2, 3⟩, ⟨4, 1⟩] ∧
    (runSimulationFromDataset [⟨2, 3⟩, ⟨4, 1⟩] 1).customers.map
        (fun c => (c.arrivalTime, c.startServiceTime, c.waitTime, c.endServiceTime)) =
      [(0, 0, 0, 3), (4, 4, 0, 5)] := by
  constructor
  · have h2 : splitLines (jsTrim "iat,service\n2,3\n4,1".toList) =
        ["iat,service".toList, "2,3".toList, "4,1".toList] := by decide
    have hic : iatColOf (headersOf
        ["iat,service".toList, "2,3".toList, "4,1".toList]) = 0 := by decide
    have hsc : stColOf (headersOf
        ["iat,service".toList, "2,3".toList, "4,1".toList]) = 1 := by decide
    have hf2 : floatLitOf "2".toList = some ⟨false, ['2'], [], false, []⟩ := by decide
    have hf3 : floatLitOf "3".toList = some ⟨false, ['3'], [], false, []⟩ := by decide
    have hf4 : floatLitOf "4".toList = some ⟨false, ['4'], [], false, []⟩ := by decide
    have hf1 : floatLitOf "1".toList = some ⟨false, ['1'], [], false, []⟩ := by decide
    have hd0 : digitsToNat [] = 0 := by decide
    have hd1 : digitsToNat ['1'] = 1 := by decide
    have hd2 : digitsToNat ['2'] = 2 := by decide
    have hd3 : digitsToNat ['3'] = 3 := by decide
    have hd4 : digitsToNat ['4'] = 4 := by decide
    have hp2 : jsParseFloat "2".toList = some 2 := by
      rw [jsParseFloat, hf2]
      norm_num [floatLitVal, hd2, hd0]
    have hp3 : jsParseFloat "3".toList = some 3 := by
      rw [jsParseFloat, hf3]
      norm_num [floatLitVal, hd3, hd0]
    have hp4 : jsParseFloat "4".toList = some 4 := by
      rw [jsParseFloat, hf4]
      norm_num [floatLitVal, hd4, hd0]
    have hp1 : jsParseFloat "1".toList = some 1 := by
      rw [jsParseFloat, hf1]
      norm_num [floatLitVal, hd1, hd0]
    have hcA1 : (splitOnPred isDelim ['2', ',', '3']).getD 0 [] = "2".toList := by decide
    have hcA2 : (splitOnPred isDelim ['2', ',', '3']).getD 1 [] = "3".toList := by decide
    have hcB1 : (splitOnPred isDelim ['4', ',', '1']).getD 0 [] = "4".toList := by decide
    have hcB2 : (splitOnPred isDelim ['4', ',', '1']).getD 1 [] = "1".toList := by decide
    have hr1 : parseRow 0 1 ['2', ',', '3'] = some ⟨2, 3⟩ := by
      simp only [parseRow, hcA1, hcA2, hp2, hp3]
      norm_num
    have hr2 : parseRow 0 1 ['4', ',', '1'] = some ⟨4, 1⟩ := by
      simp only [parseRow, hcB1, hcB2, hp4, hp1]
      norm_num
    simp only [parseCSV, h2, hic, hsc]
    norm_num
    simp only [List.filterMap_cons, List.filterMap_nil, hr1, hr2]
  · norm_num [runSimulationFromDataset, runFromDatasetLoop, stepServers, listMin,
      jsIndexOf, computeResults, mkCustomer]

/-- C5 counterexample.  The claim's utilization formula is asserted for
every `duration`, but the code's guard is `duration > 0`: at the
concrete input `duration = -1` (one customer with `serviceTime = 1`, one
server, `arrivalRate = 0`) the aggregator returns `0` while the claim's
clamped formula evaluates to `-100`. -/
theorem c5_counterexample :
    (computeResults [(⟨1, 0, 0, 0, 0, 1, 0, 0, 1, 1⟩ : CustomerRecord)]
        1 (-1) 0).serverUtilization = 0 ∧
      min ((1 : ℚ) / ((1 : ℚ) * (-1)) * 100) 100 = -100 := by
  constructor
  · rw [computeResults_serverUtilization]
    norm_num
  · norm_num

/-- C5 (amended: the utilization formula holds for positive `duration`
and the field is `0` whenever `duration ≤ 0`, not only at `duration = 0`;
stated for integral `numServers ≥ 1`, the only values the run functions
supply).  If the entity sequence is empty every summary field is zero;
otherwise `avgWaitTime` is the mean of the wait times, `maxWaitTime` is
their maximum (a member that bounds them all), `serverUtilization` is
the clamped formula for `duration > 0` and `0` otherwise, and
`avgQueueLength = arrivalRate * avgWaitTime`. -/
theorem c5_aggregator_rules (cs : List CustomerRecord) (c : ℕ) (d r : ℚ)
    (hc : 1 ≤ c) :
    (cs = [] → computeResults cs c d r =
      { customers := [], avgWaitTime := 0, maxWaitTime := 0, avgQueueLength := 0,
        serverUtilization := 0, totalCustomers := 0, customersServed := 0 }) ∧
    (cs ≠ [] →
      (computeResults cs c d r).avgWaitTime =
        (cs.map (·.waitTime)).sum / (cs.length : ℚ) ∧
      (computeResults cs c d r).maxWaitTime ∈ cs.map (·.waitTime) ∧
      (∀ w ∈ cs.map (·.waitTime), w ≤ (computeResults cs c d r).maxWaitTime) ∧
      (computeResults cs c d r).serverUtilization =
        (if 0 < d then
          min ((cs.map (·.serviceTime)).sum / ((c : ℚ) * d) * 100) 100
        else 0) ∧
      (computeResults cs c d r).avgQueueLength =
        r * (computeResults cs c d r).avgWaitTime) := by
  constructor
  · rintro rfl
    exact computeResults_empty ..
  · intro hne
    have hmapne : cs.map (·.waitTime) ≠ [] := by
      simpa using hne
    refine ⟨?_, ?_, ?_, ?_, ?_⟩
    · rw [computeResults_avgWaitTime, if_neg hne]
    · rw [computeResults_maxWaitTime, if_neg hne]
      exact listMax_mem _ hmapne
    · intro w hw
      rw [computeResults_maxWaitTime, if_neg hne]
      exact le_listMax _ w hw
    · rw [computeResults_serverUtilization, if_neg hne]
      split_ifs
      · rfl
      · norm_num
    · rw [computeResults_avgQueueLength, if_neg hne,
        computeResults_avgWaitTime, if_neg hne]

/-- C6 counterexample.  The claim asserts utilization stays in
`[0, 100]` "whatever the magnitude or sign of the inputs", but a dataset
row with a negative service time drives it to `-400`: total service time
`-4` against effective duration `1` on one server. -/
theorem c6_counterexample :
    (runSimulationFromDataset [⟨0, -5⟩, ⟨0, 1⟩] 1).serverUtilization = -400 ∧
      ¬(0 ≤ (runSimulationFromDataset [⟨0, -5⟩, ⟨0, 1⟩] 1).serverUtilization) := by
  have h : (runSimulationFromDataset [⟨0, -5⟩, ⟨0, 1⟩] 1).serverUtilization = -400 := by
    norm_num [runSimulationFromDataset, runFromDatasetLoop, stepServers, listMin,
      jsIndexOf, computeResults, mkCustomer]
  refine ⟨h, ?_⟩
  rw [h]
  norm_num

/-- C6 (amended: utilization lies in `[0, 100]` for runs whose service
times are nonnegative — guaranteed by the `parseCSV` filter `st > 0` on
the dataset path and by the exponential sampler's nonnegative values for
positive rates on the random path — with integral `numServers ≥ 1`; a
negative dataset service time can push it below `0`, see the
counterexample). -/
theorem c6_utilization_in_range (dataset : List DatasetRow) (c : ℕ) (hc : 1 ≤ c)
    (hst : ∀ r ∈ dataset, 0 ≤ r.serviceTime)
    (params : SimulationParams) (sampler : ℕ → Sample) (fuel : ℕ)
    (hp : 1 ≤ params.numServers) (hs : ∀ k, 0 ≤ (sampler k).value) :
    (0 ≤ (runSimulationFromDataset dataset c).serverUtilization ∧
      (runSimulationFromDataset dataset c).serverUtilization ≤ 100) ∧
    (0 ≤ (runSimulation params sampler fuel).serverUtilization ∧
      (runSimulation params sampler fuel).serverUtilization ≤ 100) := by
  constructor
  · rw [runSimulationFromDataset]
    refine computeResults_util_bounds _ _ _ _ hc (List.sum_nonneg ?_)
    intro x hx
    obtain ⟨cust, hcust, rfl⟩ := List.mem_map.mp hx
    obtain ⟨rrow, hrow, he⟩ := runFromDatasetLoop_service dataset 0 0 _ cust hcust
    rw [he]
    exact hst rrow hrow
  · rw [runSimulation]
    refine computeResults_util_bounds _ _ _ _ hp (List.sum_nonneg ?_)
    intro x hx
    obtain ⟨cust, hcust, rfl⟩ := List.mem_map.mp hx
    exact runSimLoop_service_nonneg sampler params.duration hs fuel 0 0 0 _ cust hcust

/-- C7 counterexample.  `runSimulation` performs no parameter
validation: at the invalid parameter set `duration = -1` it does not
fail with an `InvalidParameter` error — it returns the ordinary
all-zero summary. -/
theorem c7_counterexample :
    runSimulation ⟨1, 1, 1, -1⟩ (fun _ => ⟨1/2, 1⟩) 5 =
      { customers := [], avgWaitTime := 0, maxWaitTime := 0, avgQueueLength := 0,
        serverUtilization := 0, totalCustomers := 0, customersServed := 0 } := by
  have hloop : runSimLoop (fun _ => ⟨1/2, 1⟩) (-1) 5 0 0 0 (List.replicate 1 0) = [] := by
    rw [runSimLoop]
    rw [if_neg (by norm_num)]
  rw [runSimulation]
  dsimp only
  rw [hloop]
  exact computeResults_empty ..

/-- C7 (amended: the code contains no validation of the parameter set;
nothing is rejected and no error value exists.  In particular a
non-positive `duration` silently produces the empty run with the
all-zero summary, and the values flow into the ordinary computation
rather than raising an `InvalidParameter` error). -/
theorem c7_no_parameter_validation (params : SimulationParams)
    (sampler : ℕ → Sample) (fuel : ℕ) (hd : params.duration ≤ 0) :
    runSimulation params sampler fuel =
      { customers := [], avgWaitTime := 0, maxWaitTime := 0, avgQueueLength := 0,
        serverUtilization := 0, totalCustomers := 0, customersServed := 0 } := by
  have hloop : runSimLoop sampler params.duration fuel 0 0 0
      (List.replicate params.numServers 0) = [] := by
    cases fuel with
    | zero => rfl
    | succ n =>
      rw [runSimLoop]
      rw [if_neg (not_lt.mpr hd)]
  rw [runSimulation]
  rw [hloop]
  exact computeResults_empty ..

/-- C8.  `parseCSV` on fewer than two lines yields `[]`; otherwise it is
exactly the filter-map of the per-row acceptance over the data lines;
and a row is accepted (producing `r`) iff both selected cells parse as
finite decimal numbers with inter-arrival `≥ 0` and service `> 0` —
every other row is silently dropped. -/
theorem c8_parse_filtering (csv : String)
    (hshort : (splitLines (jsTrim csv.toList)).length < 2)
    (csv2 : String) (hlong : 2 ≤ (splitLines (jsTrim csv2.toList)).length)
    (ic sc : ℕ) (line : List Char) (r : DatasetRow) :
    parseCSV csv = [] ∧
    parseCSV csv2 =
      ((splitLines (jsTrim csv2.toList)).drop 1).filterMap
        (parseRow (iatColOf (headersOf (splitLines (jsTrim csv2.toList))))
          (stColOf (headersOf (splitLines (jsTrim csv2.toList))))) ∧
    (parseRow ic sc line = some r ↔
      jsParseFloat ((splitOnPred isDelim line).getD ic []) = some r.interArrivalTime ∧
      jsParseFloat ((splitOnPred isDelim line).getD sc []) = some r.serviceTime ∧
      0 ≤ r.interArrivalTime ∧ 0 < r.serviceTime) := by
  refine ⟨?_, ?_, ?_⟩
  · rw [parseCSV]
    rw [if_pos hshort]
  · rw [parseCSV]
    rw [if_neg (not_lt.mpr hlong)]
  · rcases hA : jsParseFloat ((splitOnPred isDelim line).getD ic []) with _ | iat
    · simp only [parseRow]
      rw [hA]
      simp
    · rcases hB : jsParseFloat ((splitOnPred isDelim line).getD sc []) with _ | st
      · simp only [parseRow]
        rw [hA, hB]
        simp
      · simp only [parseRow]
        rw [hA, hB]
        dsimp only
        split_ifs with hcond
        · cases r with
          | mk ri rs =>
            simp only [Option.some.injEq, DatasetRow.mk.injEq]
            constructor
            · rintro ⟨rfl, rfl⟩
              exact ⟨rfl, rfl, hcond.1, hcond.2⟩
            · rintro ⟨h1, h2, -, -⟩
              exact ⟨h1, h2⟩
        · cases r with
          | mk ri rs =>
            simp only [Option.some.injEq, DatasetRow.mk.injEq]
            constructor
            · intro h
              exact h.elim
            · rintro ⟨rfl, rfl, h3, h4⟩
              exact absurd ⟨h3, h4⟩ hcond

/-! ## Concrete witnesses for the hypothesised claim theorems -/

/-- Witness for C1 at a one-server state and concrete runs. -/
theorem c1_witness :
    ((stepServers [0] 0 1).serverIndex < ([0] : List ℚ).length ∧
      ([0] : List ℚ).getD (stepServers [0] 0 1).serverIndex 0 = listMin [0] ∧
      (∀ j, j < ([0] : List ℚ).length → listMin [0] ≤ ([0] : List ℚ).getD j 0) ∧
      (∀ j, j < (stepServers [0] 0 1).serverIndex →
        listMin [0] < ([0] : List ℚ).getD j 0) ∧
      (stepServers [0] 0 1).startServiceTime = max 0 (listMin [0]) ∧
      (stepServers [0] 0 1).waitTime = (stepServers [0] 0 1).startServiceTime - 0 ∧
      (stepServers [0] 0 1).endServiceTime = (stepServers [0] 0 1).startServiceTime + 1 ∧
      (stepServers [0] 0 1).finishTimes =
        ([0] : List ℚ).set (stepServers [0] 0 1).serverIndex
          (stepServers [0] 0 1).endServiceTime) ∧
    (∀ cust ∈ (runSimulationFromDataset [⟨2, 3⟩] 1).customers, FromStep 1 cust) ∧
    (∀ cust ∈ (runSimulation ⟨1, 1, 1, 1⟩ (fun _ => ⟨1/2, 1⟩) 1).customers,
      FromStep 1 cust) :=
  c1_stepper_assignment [0] 0 1 (by decide) [⟨2, 3⟩] 1 (by decide)
    ⟨1, 1, 1, 1⟩ (fun _ => ⟨1/2, 1⟩) 1 (by decide)

/-- Witness for C2 on a concrete dataset run and a concrete sampled run. -/
theorem c2_witness :
    ((runSimulationFromDataset [⟨2, 3⟩, ⟨4, 1⟩] 1).customers.map (·.id) =
        List.range' 1 (runSimulationFromDataset [⟨2, 3⟩, ⟨4, 1⟩] 1).customers.length ∧
      List.Pairwise (· ≤ ·)
        ((runSimulationFromDataset [⟨2, 3⟩, ⟨4, 1⟩] 1).customers.map (·.arrivalTime)) ∧
      ∀ cust ∈ (runSimulationFromDataset [⟨2, 3⟩, ⟨4, 1⟩] 1).customers,
        0 ≤ cust.waitTime ∧
          cust.endServiceTime = cust.startServiceTime + cust.serviceTime) ∧
    ((runSimulation ⟨1, 1, 1, 10⟩ (fun _ => ⟨1/2, 2⟩) 3).customers.map (·.id) =
        List.range' 1 (runSimulation ⟨1, 1, 1, 10⟩ (fun _ => ⟨1/2, 2⟩) 3).customers.length ∧
      List.Pairwise (· ≤ ·)
        ((runSimulation ⟨1, 1, 1, 10⟩ (fun _ => ⟨1/2, 2⟩) 3).customers.map (·.arrivalTime)) ∧
      ∀ cust ∈ (runSimulation ⟨1, 1, 1, 10⟩ (fun _ => ⟨1/2, 2⟩) 3).customers,
        0 ≤ cust.waitTime ∧
          cust.endServiceTime = cust.startServiceTime + cust.serviceTime) ∧
    (∀ (ft : List ℚ) (a sv : ℚ), ft ≠ [] →
      (stepServers ft a sv).finishTimes.getD (stepServers ft a sv).serverIndex 0 =
        (stepServers ft a sv).endServiceTime) :=
  c2_run_invariants [⟨2, 3⟩, ⟨4, 1⟩] 1 (by decide) (by decide) ⟨1, 1, 1, 10⟩
    (fun _ => ⟨1/2, 2⟩) 3 (by decide) (by decide) (by decide) (by decide)
    (fun _ => by norm_num)

/-- Witness for C3 at a concrete dataset with server counts 1 and 2. -/
theorem c3_witness :
    (runSimulationFromDataset [⟨0, 5⟩, ⟨0, 5⟩] 2).avgWaitTime ≤
      (runSimulationFromDataset [⟨0, 5⟩, ⟨0, 5⟩] 1).avgWaitTime :=
  c3_more_servers_no_worse [⟨0, 5⟩, ⟨0, 5⟩] 1 2 (by decide) (by decide)

/-- Witness for the amended C5 at a concrete one-customer sequence. -/
theorem c5_witness :
    ([(⟨1, 0, 0, 0, 0, 1, 0, 0, 1, 1⟩ : CustomerRecord)] = ([] : List CustomerRecord) →
      computeResults [(⟨1, 0, 0, 0, 0, 1, 0, 0, 1, 1⟩ : CustomerRecord)] 2 5 3 =
        { customers := [], avgWaitTime := 0, maxWaitTime := 0, avgQueueLength := 0,
          serverUtilization := 0, totalCustomers := 0, customersServed := 0 }) ∧
    ([(⟨1, 0, 0, 0, 0, 1, 0, 0, 1, 1⟩ : CustomerRecord)] ≠ ([] : List CustomerRecord) →
      (computeResults [(⟨1, 0, 0, 0, 0, 1, 0, 0, 1, 1⟩ : CustomerRecord)] 2 5 3).avgWaitTime =
        (([(⟨1, 0, 0, 0, 0, 1, 0, 0, 1, 1⟩ : CustomerRecord)].map (·.waitTime)).sum) /
          (([(⟨1, 0, 0, 0, 0, 1, 0, 0, 1, 1⟩ : CustomerRecord)].length : ℚ)) ∧
      (computeResults [(⟨1, 0, 0, 0, 0, 1, 0, 0, 1, 1⟩ : CustomerRecord)] 2 5 3).maxWaitTime ∈
        [(⟨1, 0, 0, 0, 0, 1, 0, 0, 1, 1⟩ : CustomerRecord)].map (·.waitTime) ∧
      (∀ w ∈ [(⟨1, 0, 0, 0, 0, 1, 0, 0, 1, 1⟩ : CustomerRecord)].map (·.waitTime),
        w ≤ (computeResults [(⟨1, 0, 0, 0, 0, 1, 0, 0, 1, 1⟩ : CustomerRecord)] 2 5 3).maxWaitTime) ∧
      (computeResults [(⟨1, 0, 0, 0, 0, 1, 0, 0, 1, 1⟩ : CustomerRecord)] 2 5 3).serverUtilization =
        (if (0 : ℚ) < 5 then
          min ((([(⟨1, 0, 0, 0, 0, 1, 0, 0, 1, 1⟩ : CustomerRecord)].map (·.serviceTime)).sum) /
            (((2 : ℕ) : ℚ) * 5) * 100) 100
        else 0) ∧
      (computeResults [(⟨1, 0, 0, 0, 0, 1, 0, 0, 1, 1⟩ : CustomerRecord)] 2 5 3).avgQueueLength =
        3 * (computeResults [(⟨1, 0, 0, 0, 0, 1, 0, 0, 1, 1⟩ : CustomerRecord)] 2 5 3).avgWaitTime) :=
  c5_aggregator_rules [(⟨1, 0, 0, 0, 0, 1, 0, 0, 1, 1⟩ : CustomerRecord)] 2 5 3 (by decide)

/-- Witness for the amended C6 at concrete runs with nonnegative service
times. -/
theorem c6_witness :
    (0 ≤ (runSimulationFromDataset [⟨2, 3⟩] 1).serverUtilization ∧
      (runSimulationFromDataset [⟨2, 3⟩] 1).serverUtilization ≤ 100) ∧
    (0 ≤ (runSimulation ⟨1, 1, 1, 1⟩ (fun _ => ⟨1/2, 1⟩) 2).serverUtilization ∧
      (runSimulation ⟨1, 1, 1, 1⟩ (fun _ => ⟨1/2, 1⟩) 2).serverUtilization ≤ 100) :=
  c6_utilization_in_range [⟨2, 3⟩] 1 (by decide) (by decide) ⟨1, 1, 1, 1⟩
    (fun _ => ⟨1/2, 1⟩) 2 (by decide) (fun _ => by norm_num)

/-- Witness for the amended C7 at a concrete zero-duration parameter
set. -/
theorem c7_witness :
    runSimulation ⟨1, 1, 1, 0⟩ (fun _ => ⟨1/2, 1⟩) 3 =
      { customers := [], avgWaitTime := 0, maxWaitTime := 0, avgQueueLength := 0,
        serverUtilization := 0, totalCustomers := 0, customersServed := 0 } :=
  c7_no_parameter_validation ⟨1, 1, 1, 0⟩ (fun _ => ⟨1/2, 1⟩) 3 (by decide)

/-- Witness for C8 at a header-only blob, a two-line blob and a concrete
row. -/
theorem c8_witness :
    parseCSV "iat,service" = [] ∧
    parseCSV "iat,service\n2,3" =
      ((splitLines (jsTrim "iat,service\n2,3".toList)).drop 1).filterMap
        (parseRow (iatColOf (headersOf (splitLines (jsTrim "iat,service\n2,3".toList))))
          (stColOf (headersOf (splitLines (jsTrim "iat,service\n2,3".toList))))) ∧
    (parseRow 0 1 ['2', ',', '3'] = some ⟨2, 3⟩ ↔
      jsParseFloat ((splitOnPred isDelim ['2', ',', '3']).getD 0 []) = some 2 ∧
      jsParseFloat ((splitOnPred isDelim ['2', ',', '3']).getD 1 []) = some 3 ∧
      (0 : ℚ) ≤ 2 ∧ (0 : ℚ) < 3) :=
  c8_parse_filtering "iat,service" (by decide) "iat,service\n2,3" (by decide)
    0 1 ['2', ',', '3'] ⟨2, 3⟩

/-- Witness for C10 at concrete one-server runs. -/
theorem c10_witness :
    (∀ cust ∈ (runSimulationFromDataset [⟨2, 3⟩] 1).customers,
      1 ≤ cust.serverAssigned ∧ cust.serverAssigned ≤ 1) ∧
    (∀ cust ∈ (runSimulation ⟨1, 1, 1, 1⟩ (fun _ => ⟨1/2, 1⟩) 1).customers,
      1 ≤ cust.serverAssigned ∧ cust.serverAssigned ≤ 1) ∧
    (∀ (ft : List ℚ) (a sv : ℚ), ft ≠ [] →
      (stepServers ft a sv).serverIndex < ft.length) :=
  c10_server_assignment_in_range [⟨2, 3⟩] 1 (by decide) ⟨1, 1, 1, 1⟩
    (fun _ => ⟨1/2, 1⟩) 1 (by decide)

end MCSim
